import Mathlib

/-!
# Verification of the GpuJoin runtime buffer and task-scheduling engine

Shallow embedding, in Lean 4, of the core runtime logic of the GpuJoin
module (inner-relation preloading and partitioning, the multi-relation
shared buffer with per-device reference counting and outer-join match
maps, the adaptive result-buffer sizing and retry loop, and the kernel
launch sequence of one task), together with theorems settling the
specification claims against it.

Machine integers are modelled as `Nat` (all the quantities involved are
non-negative sizes and counters); C `double` arithmetic is modelled as
exact rational arithmetic over `ℚ`; fallible paths (`elog(ERROR, ...)`)
are modelled with `Except String`.
-/

deriving instance DecidableEq for Except

namespace GpuJoin

/-! ## 1. The window odometer of `gpujoin_inner_preload`

Each inner depth `i` keeps `pds_index` (1-based selector into its list of
sealed SubChunks) and the length of that list.  On the second and later
calls, `gpujoin_inner_preload` advances the odometer: it scans depths from
the last one (least significant) to the first, increments the first depth
whose `pds_index` has room, and then runs
`for (j=i+1; j < num_rels; j++) gjs->inners[i].pds_index = 1;`
(note the `[i]` in the loop body).  Afterwards it builds the new
`pgstrom_multirels` from `linitial(istate->pds_list)` of every depth. -/

/-- Batch state of one inner depth: `pds_index` is the 1-based SubChunk
selector, `nbatches` the length of `pds_list`. -/
structure DepthBatch where
  pds_index : Nat
  nbatches : Nat
deriving DecidableEq, Repr

/-- The odometer-advance loop of `gpujoin_inner_preload` exactly as coded:
scan from the least-significant (last) depth; on the first depth `i` with
`pds_index < n`, increment `pds_index`, then execute the body
`gjs->inners[i].pds_index = 1` once per less-significant depth `j`
(so the entry just incremented is overwritten back to 1 whenever any
less-significant depth exists, and the less-significant depths keep
their exhausted values).  `none` models the `i < 0` end-of-scan exit. -/
def advanceCode : List DepthBatch → Option (List DepthBatch)
  | [] => none
  | d :: rest =>
    match advanceCode rest with
    | some rest' => some (d :: rest')
    | none =>
      if d.pds_index < d.nbatches then
        some ({ d with pds_index := if rest.isEmpty then d.pds_index + 1 else 1 } :: rest)
      else
        none

/-- The odometer advance as the specification words it: increment the
least-significant depth whose index has remaining SubChunks and reset all
less-significant depths back to their first SubChunk. -/
def advanceSpec : List DepthBatch → Option (List DepthBatch)
  | [] => none
  | d :: rest =>
    match advanceSpec rest with
    | some rest' => some (d :: rest')
    | none =>
      if d.pds_index < d.nbatches then
        some ({ d with pds_index := d.pds_index + 1 } ::
              rest.map (fun r => { r with pds_index := 1 }))
      else
        none

/-- SubChunk selection used when the new `pgstrom_multirels` is built:
the source takes `linitial(istate->pds_list)` for every depth, ignoring
`pds_index` entirely. -/
def windowCode (pdsLists : List (List α)) (_st : List DepthBatch) : List (Option α) :=
  pdsLists.map List.head?

/-- SubChunk selection as the specification words it: the SubChunk
currently selected by the odometer (`pds_index` is 1-based). -/
def windowSpec (pdsLists : List (List α)) (st : List DepthBatch) : List (Option α) :=
  List.zipWith (fun l d => l.get? (d.pds_index - 1)) pdsLists st

/-- Initial odometer state: `pds_index = 1` at every depth
(`gjs->inners[i].pds_index = 1` after the first preload). -/
def initOdometer (lens : List Nat) : List DepthBatch :=
  lens.map (fun n => ⟨1, n⟩)

/-- The scan loop of `gpujoin_next_chunk`: emit the window of the current
odometer state, then advance; stop at end-of-scan.  `fuel` bounds the
number of windows produced (the C loop has no bound; a run that fails to
terminate simply exhausts any fuel). -/
def enumWindows (adv : List DepthBatch → Option (List DepthBatch))
    (win : List (List α) → List DepthBatch → List (Option α))
    (pdsLists : List (List α)) :
    Nat → List DepthBatch → List (List (Option α))
  | 0, _ => []
  | fuel+1, st =>
    win pdsLists st ::
      match adv st with
      | some st' => enumWindows adv win pdsLists fuel st'
      | none => []

/-! ## 2. Histogram partitioning of `gpujoin_inner_hash_preload_TS`
and the budget-overflow branching of `gpujoin_inner_hash_preload`

The histogram has `hgram_width = 2^(32 - hgram_shift)` buckets over the
32-bit hash space; bucket `i` covers hash values
`[i * 2^hgram_shift, (i+1) * 2^hgram_shift)`.  The repartition pass
greedily accumulates contiguous buckets up to `pds_limit`; when adding
the next bucket would exceed the budget it seals a SubChunk whose hash
range ends at the current bucket's upper boundary, erroring out if the
accumulated size is still zero.  All `pg_crc32` / `cl_uint` arithmetic
is 32-bit, so the boundary computations carry an explicit `% 2^32`. -/

/-- Largest 32-bit value (`UINT_MAX`). -/
def UINT_MAX : Nat := 2 ^ 32 - 1

/-- The greedy boundary-decision loop of `gpujoin_inner_hash_preload_TS`.
Arguments mirror the C locals: the remaining histogram bucket sizes, the
current bucket index `i`, the running `hash_min` and the accumulated
`curr_size`.  Sealing at bucket `i` fixes
`hash_max = (i+1) * 2^shift - 1` (a `cl_uint`, hence reduced mod `2^32`)
and restarts accumulation at `hash_min = hash_max + 1` (also `cl_uint`);
the trailing chunk always extends to `UINT_MAX`. -/
def partitionTSAux (limit shift : Nat) :
    List Nat → Nat → Nat → Nat → Except String (List (Nat × Nat))
  | [], _i, hash_min, _curr => .ok [(hash_min, UINT_MAX)]
  | next :: rest, i, hash_min, curr =>
    if curr + next > limit then
      if curr = 0 then
        .error "Too extreme hash-key distribution"
      else
        let hash_max := ((i + 1) * 2 ^ shift - 1) % 2 ^ 32
        match partitionTSAux limit shift rest (i + 1) ((hash_max + 1) % 2 ^ 32) next with
        | .ok ranges => .ok ((hash_min, hash_max) :: ranges)
        | .error e => .error e
    else
      partitionTSAux limit shift rest (i + 1) hash_min (curr + next)

/-- Hash-range boundary decision of `gpujoin_inner_hash_preload_TS`:
the `[hash_min, hash_max]` range of every SubChunk it materializes, in
order, given the histogram bucket byte sizes and the byte budget
`pds_limit`. -/
def partitionTS (limit shift : Nat) (hgram : List Nat) :
    Except String (List (Nat × Nat)) :=
  partitionTSAux limit shift hgram 0 0 0

/-- The routing loop of `gpujoin_inner_hash_preload_TS` (the second pass
over the tuplestore): a row is inserted into the first SubChunk whose
`hash_max` bound admits its hash value; `none` models falling off the
list (the `"Bug? GpuHashJoin Histgram was not correct"` path). -/
def routeHash (ranges : List (Nat × Nat)) (h : Nat) : Option Nat :=
  match ranges with
  | [] => none
  | r :: rest => if h ≤ r.2 then some 0 else (routeHash rest h).map (· + 1)

/-- Join type of one inner depth.  `gpujoin_add_join_path` admits GpuJoin
only for INNER, LEFT, RIGHT and FULL joins. -/
inductive JoinType
  | inner
  | left
  | right
  | full
deriving DecidableEq, Repr

/-- What `gpujoin_inner_hash_preload` does at a depth whose byte budget
(`pds_limit`) is reached while buffering. -/
inductive OverflowAction
  | extendChunkList
  | spillToTupleStore
deriving DecidableEq, Repr

/-- The budget-overflow branching of `gpujoin_inner_hash_preload`: when
`pds_limit <= consumed + consumption`, depths with
`join_type == JOIN_INNER || join_type == JOIN_RIGHT` seal the current
hash chunk and append a fresh one to `pds_list`, while the remaining
join types (LEFT, FULL) move every buffered row into a tuplestore and
rebuild the depth by histogram repartitioning. -/
def hashPreloadOverflowAction (jt : JoinType) : OverflowAction :=
  if jt = JoinType.inner ∨ jt = JoinType.right then
    OverflowAction.extendChunkList
  else
    OverflowAction.spillToTupleStore

/-- `ranges` is a chain of consecutive, non-empty closed intervals that
starts at `lo` and ends at `UINT_MAX`: the shape of a clean partition of
the 32-bit hash space when `lo = 0`. -/
inductive CoversFrom : List (Nat × Nat) → Nat → Prop
  | last {lo : Nat} (h : lo ≤ UINT_MAX) : CoversFrom [(lo, UINT_MAX)] lo
  | cons {lo hi : Nat} {rest : List (Nat × Nat)} (h₁ : lo ≤ hi)
      (h₂ : hi < UINT_MAX) (h₃ : CoversFrom rest (hi + 1)) :
      CoversFrom ((lo, hi) :: rest) lo

/-! ## 3. The multi-relations shared buffer (`pgstrom_multirels`)

State machine over the reference-counting operations
`multirels_attach_buffer`, `multirels_detach_buffer`,
`multirels_get_buffer`, `multirels_put_buffer` and
`multirels_send_buffer`.  Ghost counters record how often the
observable one-shot effects happened (device-mirror allocations, DMA
uploads, outer-join-map allocations — each ojmap allocation zero-clears
the map, and enqueued OUTER JOIN sweep tasks).  Operations are guarded
on `n_attached > 0`: once the final detach has freed the
`pgstrom_multirels`, no further call can legally address it, so such
calls leave the state unchanged. -/

/-- Per-device slice of a `pgstrom_multirels`: `refcnt[dev]`,
the device mirror pointer `m_kmrels[dev]` (modelled by whether it is
non-NULL), the load event `ev_loaded[dev]`, and the outer-join map
pointer `m_ojmaps[dev]`, plus ghost counters. -/
structure DevState where
  refcnt : Nat
  m_kmrels : Bool
  ev_loaded : Bool
  m_ojmaps : Bool
  kmrels_allocs : Nat
  uploads : Nat
  ojmap_allocs : Nat
deriving DecidableEq, Repr

instance : Inhabited DevState :=
  ⟨{ refcnt := 0, m_kmrels := false, ev_loaded := false, m_ojmaps := false,
     kmrels_allocs := 0, uploads := 0, ojmap_allocs := 0 }⟩

/-- Host-side state of one `pgstrom_multirels`: the process-wide attach
count, the `outer_join_kicked` flag, the fixed fact `ojmap_length > 0`
(any depth is a RIGHT/FULL outer join), one `DevState` per device, and
a ghost count of OUTER JOIN sweep tasks pushed on `pending_tasks`. -/
structure MRState where
  n_attached : Nat
  outer_join_kicked : Bool
  has_ojmap : Bool
  devs : List DevState
  sweeps_enqueued : Nat
deriving DecidableEq, Repr

/-- The per-device slice for device `d` (out-of-range reads give the
all-zero slice). -/
def MRState.dev (s : MRState) (d : Nat) : DevState :=
  s.devs.getD d default

/-- Operations on one `pgstrom_multirels`. -/
inductive MROp
  | attach
  | detach (mayKickOuterJoin : Bool)
  | get (dev : Nat) (allocOk : Bool)
  | put (dev : Nat)
  | send (dev : Nat)
deriving DecidableEq, Repr

/-- `multirels_attach_buffer`: `Assert(n_attached > 0); n_attached++`. -/
def stepAttach (s : MRState) : MRState :=
  if s.n_attached = 0 then s
  else { s with n_attached := s.n_attached + 1 }

/-- `multirels_detach_buffer(pmrels, may_kick_outer_join)`: when the
caller may trigger the sweep, this is the last holder and the sweep has
not been kicked yet, an OUTER JOIN task (`pds_src == NULL`) is created —
`gpujoin_create_task` re-attaches the buffer to that task — and pushed
on `pending_tasks`, and `outer_join_kicked` is set.  Then `n_attached`
is decremented; at zero every per-device outer-join map is freed and
the `pgstrom_multirels` itself is released. -/
def stepDetach (mayKick : Bool) (s : MRState) : MRState :=
  if s.n_attached = 0 then s
  else
    let s :=
      if mayKick ∧ s.n_attached = 1 ∧ ¬s.outer_join_kicked then
        { s with n_attached := s.n_attached + 1,
                 sweeps_enqueued := s.sweeps_enqueued + 1,
                 outer_join_kicked := true }
      else s
    let n' := s.n_attached - 1
    if n' = 0 then
      { s with n_attached := 0,
               devs := s.devs.map (fun dv => { dv with m_ojmaps := false }) }
    else
      { s with n_attached := n' }

/-- `multirels_get_buffer`: with no live reference on this device, the
mirror is allocated; if `ojmap_length > 0` and the outer-join map has
never been allocated on this device it is allocated too and zero-cleared
(`cuMemsetD32`) — an allocation failure of either buffer releases what
was taken and returns without touching the state.  Finally
`refcnt[dev]++`. -/
def stepGet (d : Nat) (allocOk : Bool) (s : MRState) : MRState :=
  if s.n_attached = 0 then s
  else
    let dv := s.dev d
    if dv.refcnt = 0 then
      if allocOk then
        let dv := { dv with m_kmrels := true,
                            kmrels_allocs := dv.kmrels_allocs + 1 }
        let dv :=
          if s.has_ojmap ∧ ¬dv.m_ojmaps then
            { dv with m_ojmaps := true, ojmap_allocs := dv.ojmap_allocs + 1 }
          else dv
        { s with devs := s.devs.set d { dv with refcnt := 1 } }
      else s
    else
      { s with devs := s.devs.set d { dv with refcnt := dv.refcnt + 1 } }

/-- `multirels_put_buffer`: `Assert(refcnt > 0)`; decrement; at zero the
device mirror is freed (`m_kmrels[dev] = 0`) and the load event, if any,
destroyed — the outer-join map is left alone. -/
def stepPut (d : Nat) (s : MRState) : MRState :=
  if s.n_attached = 0 then s
  else
    let dv := s.dev d
    if dv.refcnt = 0 then s
    else if dv.refcnt - 1 = 0 then
      let dv' := { dv with refcnt := 0, m_kmrels := false, ev_loaded := false }
      { s with devs := s.devs.set d dv' }
    else
      { s with devs := s.devs.set d { dv with refcnt := dv.refcnt - 1 } }

/-- `multirels_send_buffer`: the first caller on a device enqueues the
DMA upload of the whole buffer and records `ev_loaded[dev]`; every later
caller merely waits on that event (`cuStreamWaitEvent`), uploading
nothing. -/
def stepSend (d : Nat) (s : MRState) : MRState :=
  if s.n_attached = 0 then s
  else
    let dv := s.dev d
    if dv.ev_loaded then s
    else
      let dv' := { dv with ev_loaded := true, uploads := dv.uploads + 1 }
      { s with devs := s.devs.set d dv' }

/-- One step of the `pgstrom_multirels` state machine. -/
def stepMR (s : MRState) : MROp → MRState
  | .attach => stepAttach s
  | .detach mk => stepDetach mk s
  | .get d ok => stepGet d ok s
  | .put d => stepPut d s
  | .send d => stepSend d s

/-- State of a freshly preloaded `pgstrom_multirels`:
`pmrels->n_attached = 1` (attached on the caller's context), sweep not
kicked, no device touched yet. -/
def initMR (ndevs : Nat) (hasOjmap : Bool) : MRState :=
  { n_attached := 1, outer_join_kicked := false, has_ojmap := hasOjmap,
    devs := List.replicate ndevs default, sweeps_enqueued := 0 }

/-- Run a sequence of operations. -/
def runMR (s : MRState) (ops : List MROp) : MRState :=
  ops.foldl stepMR s

/-! ## 4. Adaptive result-buffer sizing (`gpujoin_attach_result_buffer`)
and the completion callback (`gpujoin_task_complete`)

C `double` arithmetic is modelled exactly over `ℚ`; the C casts
`(Size)`, `(cl_uint)` of non-negative doubles truncate, modelled by
`ratFloorNat`.  Alignment macros and layout offsets are threaded through
`SizingConfig` (`SA` stands for `STROMALIGN`); the destination store is
modelled in its `KDS_FORMAT_SLOT` form. -/

/-- C `INT_MAX`. -/
def INT_MAX : Nat := 2 ^ 31 - 1

/-- C cast of a non-negative `double` to an unsigned integer type:
truncation. -/
def ratFloorNat (q : ℚ) : Nat := (Int.floor q).toNat

/-- Layout and GUC constants of the sizing code. -/
structure SizingConfig where
  /-- `pgstrom_chunk_size()` -/
  chunk_size : Nat
  /-- `pgstrom_chunk_size_limit()` -/
  chunk_size_limit : Nat
  /-- `pgstrom_chunk_size_margin()` -/
  margin : ℚ
  /-- `STROMALIGN` -/
  SA : Nat → Nat
  /-- `offsetof(kern_gpujoin, kparams) + STROMALIGN(kern_params->length)` -/
  kgjoin_head : Nat
  /-- `offsetof(kern_resultbuf, results[0])` -/
  resbuf0 : Nat
  /-- `STROMALIGN(offsetof(kern_data_store, colmeta[ncols]))` -/
  kds_head : Nat
  /-- `LONGALIGN((sizeof(Datum) + sizeof(char)) * ncols)` -/
  slot_width : Nat
  ncols : Nat

/-- Planner estimates and cumulative run-time statistics of a
`GpuJoinState` used by the estimator. -/
structure GJStats where
  num_rels : Nat
  /-- `gjs->source_nitems` -/
  source_nitems : Nat
  /-- `gjs->outer_nitems[0 .. num_rels]` -/
  outer_nitems : List Nat
  /-- `gjs->kresults_ratio` (planned) -/
  kresults_ratio_plan : ℚ
  /-- `gjs->inners[num_rels-1].nrows_ratio` (planned) -/
  dst_nrows_ratio_plan : ℚ
  /-- `outerPlanState(gjs)->plan->plan_rows` -/
  outer_plan_nrows : ℚ

/-- Host-visible header of a destination `kern_data_store`. -/
structure DstState where
  length : Nat
  nrooms : Nat
  nitems : Nat
  usage : Nat
deriving DecidableEq, Repr

/-- Device-written completion status of a task. -/
inductive ErrCode
  | success
  | dataStoreNoSpace
  | other (code : Nat)
deriving DecidableEq, Repr

/-- One `pgstrom_gpujoin` task object, reduced to the fields the sizing
and completion logic reads and writes.  `id` models object identity;
`src_chunk` models the `pds_src` pointer (ownership of the outer
chunk), `src_nitems` the chunk's row count. -/
structure PGJoin where
  id : Nat
  errcode : ErrCode
  oitems_base : Nat
  oitems_nums : Nat
  src_chunk : Option Nat
  src_nitems : Nat
  /-- `pgjoin->kern.kresults_max_items` (device-written watermark) -/
  kresults_max_items : Nat
  /-- `nitems` of the depth-1 input `kern_resultbuf` -/
  kresults_in_nitems : Nat
  /-- `pgjoin->kern.outer_nitems[0 .. num_rels]` -/
  kern_outer_nitems : List Nat
  pds_dst : Option DstState
deriving DecidableEq, Repr

/-- Fresh ratio prediction (the `pds_src != NULL` path): with no rows
processed yet use the planner's ratios; past 30% of the planned outer
row count use observed ratios exclusively; in between blend the two
linearly with `merge_ratio = source_nitems / (0.30 * plan_rows)`. -/
def freshRatios (g : GJStats) : ℚ × ℚ :=
  if g.source_nitems = 0 then
    (g.kresults_ratio_plan, g.dst_nrows_ratio_plan)
  else
    let snq : ℚ := (g.source_nitems : ℚ)
    let o0 : ℚ := (g.outer_nitems.getD 0 0 : ℚ)
    let krExec := (List.range g.num_rels).foldl
      (fun acc i => max acc (((i : ℚ) + 2) * o0 / snq)) (o0 / snq)
    let drExec : ℚ := ((g.outer_nitems.getD (g.num_rels - 1) 0 : ℚ)) / snq
    if g.source_nitems ≥ ratFloorNat (3 / 10 * g.outer_plan_nrows) then
      (krExec, drExec)
    else
      let mr := snq / (3 / 10 * g.outer_plan_nrows)
      (krExec * mr + g.kresults_ratio_plan * (1 - mr),
       drExec * mr + g.dst_nrows_ratio_plan * (1 - mr))

/-- Re-execution floor after `StromError_DataStoreNoSpace` (the task
already owns a destination buffer): each fresh prediction is maxed with
the consumption ratio of the failed attempt,
`kresults_max_items / oitems_nums` resp. `kds_dst->nitems / oitems_nums`. -/
def retryRatios (t : PGJoin) (kr dr : ℚ) : ℚ × ℚ :=
  match t.pds_dst with
  | some dst =>
    (max kr ((t.kresults_max_items : ℚ) / (t.oitems_nums : ℚ)),
     max dr ((dst.nitems : ℚ) / (t.oitems_nums : ℚ)))
  | none => (kr, dr)

/-- `STROMALIGN(offsetof(kern_resultbuf, results[n]))`. -/
def resbufLen (cfg : SizingConfig) (n : Nat) : Nat :=
  cfg.SA (cfg.resbuf0 + 4 * n)

/-- Length of a `kern_gpujoin` holding two `kern_resultbuf` of `n`
items each. -/
def kgjoinLength (cfg : SizingConfig) (n : Nat) : Nat :=
  cfg.kgjoin_head + resbufLen cfg n + resbufLen cfg n

/-- The per-result-buffer item count that fits the
`pgstrom_chunk_size()` ceiling — determined by the ceiling alone, not
by any prediction. -/
def reducedItems (cfg : SizingConfig) : Nat :=
  ((cfg.chunk_size - cfg.kgjoin_head) / 2 - cfg.SA cfg.resbuf0) / 4

/-- Result-buffer admission control: when the predicted `kern_gpujoin`
would not fit `pgstrom_chunk_size()`, the item count is capped at
`reducedItems cfg` and the admitted outer row count is scaled down by
the same `reduced / total` factor; falling below one row raises
`"Kresults growth ratio too large"`.  Returns
`(admitted outer rows, result-buffer items)`. -/
def admitReduction (cfg : SizingConfig) (oitems total_items : Nat) :
    Except String (Nat × Nat) :=
  if kgjoinLength cfg total_items > cfg.chunk_size then
    if ratFloorNat ((oitems : ℚ) * (reducedItems cfg : ℚ) /
        (total_items : ℚ)) < 1 then
      .error "Kresults growth ratio too large"
    else
      .ok (ratFloorNat ((oitems : ℚ) * (reducedItems cfg : ℚ) /
        (total_items : ℚ)), reducedItems cfg)
  else
    .ok (oitems, total_items)

/-- Destination sizing, `KDS_FORMAT_SLOT`: estimate the destination row
count, adjust if too short (below a quarter chunk) or too large (above
`pgstrom_chunk_size_limit()`, in which case the admitted outer row
count is reduced instead and falling below one row raises
`"Too much growth of results tuples"`); then create the destination
store, or — when the task already owns one — reset its write cursors,
re-allocating only if it must grow.  Returns
`(admitted outer rows, destination store header)`. -/
def dstAdjust (cfg : SizingConfig) (dr : ℚ) (oitems : Nat) :
    Except String (Nat × Nat) :=
  let result_nitems := ratFloorNat ((oitems : ℚ) * dr * cfg.margin)
  if cfg.ncols = 0 then .ok (oitems, INT_MAX)
  else if cfg.kds_head + cfg.slot_width * result_nitems < cfg.chunk_size / 4 then
    .ok (oitems, (cfg.chunk_size / 4 - cfg.kds_head) / cfg.slot_width)
  else if cfg.kds_head + cfg.slot_width * result_nitems > cfg.chunk_size_limit then
    let small := (cfg.chunk_size_limit - cfg.kds_head) / cfg.slot_width
    let oitems' := ratFloorNat ((oitems : ℚ) * (small : ℚ) / (result_nitems : ℚ))
    if oitems' < 1 then .error "Too much growth of results tuples"
    else .ok (oitems', small)
  else .ok (oitems, result_nitems)

/-- Creation or cursor-reset of the destination store once the adjusted
`(admitted rows, destination row count)` pair is known: a fresh store
when the task has none, otherwise `usage`/`nitems` are zeroed and the
store re-allocated only if it must grow. -/
def dstFinalize (cfg : SizingConfig) (prev : Option DstState)
    (p : Nat × Nat) : Nat × DstState :=
  match prev with
  | none =>
    (p.1, { length := cfg.kds_head + cfg.slot_width * p.2,
            nrooms := p.2, nitems := 0, usage := 0 })
  | some dst =>
    let new_length := cfg.kds_head + cfg.slot_width * p.2
    if new_length ≤ dst.length then
      (p.1, { dst with usage := 0, nitems := 0, nrooms := p.2 })
    else
      (p.1, { length := new_length, nrooms := p.2, nitems := 0,
              usage := 0 })

def dstSizing (cfg : SizingConfig) (dr : ℚ) (oitems : Nat)
    (prev : Option DstState) : Except String (Nat × DstState) :=
  (dstAdjust cfg dr oitems).map (dstFinalize cfg prev)

/-- What `gpujoin_attach_result_buffer` leaves behind on success. -/
structure SizingResult where
  oitems_nums : Nat
  kresults_total_items : Nat
  /-- `kgjoin->kresults_max_items`, written back as 0 -/
  kresults_max_items : Nat
  /-- `nitems` of the depth-1 input result buffer, written back as 0 -/
  kresults_in_nitems : Nat
  dst : DstState
  /-- final `kresults_ratio` the sizes were derived from -/
  kresults_ratio_used : ℚ
  /-- final `dst_nrows_ratio` the sizes were derived from -/
  dst_nrows_ratio_used : ℚ
deriving DecidableEq

/-- Assembly of the `SizingResult` from the admission-control pair and
the destination pair; the write cursors `kresults_max_items` and the
depth-1 `kresults_in->nitems` are written back as zero. -/
def attachFinalize (rr : ℚ × ℚ) (p1 : Nat × Nat) (p2 : Nat × DstState) :
    SizingResult :=
  { oitems_nums := p2.1, kresults_total_items := p1.2,
    kresults_max_items := 0, kresults_in_nitems := 0,
    dst := p2.2, kresults_ratio_used := rr.1,
    dst_nrows_ratio_used := rr.2 }

/-- `gpujoin_attach_result_buffer` for a task with an outer source
chunk (`pds_src != NULL`), destination format `KDS_FORMAT_SLOT`.
The caller guarantees `Assert(oitems_base < src_nitems)`. -/
def attachResultBuffer (cfg : SizingConfig) (g : GJStats) (t : PGJoin) :
    Except String SizingResult :=
  let oitems0 := t.src_nitems - t.oitems_base
  let fr := freshRatios g
  let rr := retryRatios t fr.1 fr.2
  let total0 := ratFloorNat (rr.1 * (oitems0 : ℚ) * cfg.margin)
  (admitReduction cfg oitems0 total0).bind (fun p1 =>
    (dstSizing cfg rr.2 p1.1 t.pds_dst).map (attachFinalize rr p1))

/-- Scheduler-visible state touched by `gpujoin_task_complete`:
the pending queue (head = front) and the cumulative statistics. -/
structure Sched where
  pending : List PGJoin
  source_nitems : Nat
  outer_nitems : List Nat
deriving DecidableEq, Repr

/-- Outcome of `gpujoin_task_complete`: the updated scheduler state,
the callback's return value (`false` means the callback re-entered the
task itself and the scheduler must not treat it as finished), the
completed task object after the call, and the continuation task if one
was created. -/
structure CompleteResult where
  sched : Sched
  retval : Bool
  task : PGJoin
  cont : Option PGJoin
deriving DecidableEq, Repr

/-- `gpujoin_task_complete`.  On `StromError_Success`, fold the task's
counters into the cumulative statistics and, if the sizing had admitted
fewer outer rows than the chunk holds, hand the outer chunk over to a
freshly created continuation task (queued at the tail of
`pending_tasks`).  On `StromError_DataStoreNoSpace`, regrow the buffers
via `gpujoin_attach_result_buffer` and push the same task back at the
head of `pending_tasks`, returning `false`; the status code is consumed
here and never reaches the consumer.  Any other status is left to the
generic error path (`return true`). -/
def gpujoin_task_complete (cfg : SizingConfig) (g : GJStats)
    (sched : Sched) (t : PGJoin) (freshId : Nat) :
    Except String CompleteResult :=
  match t.errcode with
  | .success =>
    let source_add :=
      min (t.oitems_base + t.oitems_nums) t.src_nitems - t.oitems_base
    let sched' : Sched := { sched with
      source_nitems := sched.source_nitems + source_add,
      outer_nitems :=
        List.zipWith (· + ·) sched.outer_nitems t.kern_outer_nitems }
    if t.oitems_base + t.oitems_nums < t.src_nitems then
      let t' := { t with src_chunk := none }
      let g' := { g with source_nitems := sched'.source_nitems,
                         outer_nitems := sched'.outer_nitems }
      let cont0 : PGJoin :=
        { id := freshId, errcode := .success,
          oitems_base := t.oitems_base + t.oitems_nums, oitems_nums := 0,
          src_chunk := t.src_chunk, src_nitems := t.src_nitems,
          kresults_max_items := 0, kresults_in_nitems := 0,
          kern_outer_nitems := [], pds_dst := none }
      (attachResultBuffer cfg g' cont0).map (fun r =>
        let cont := { cont0 with oitems_nums := r.oitems_nums,
                                 pds_dst := some r.dst }
        { sched := { sched' with pending := sched'.pending ++ [cont] },
          retval := true, task := t', cont := some cont })
    else
      .ok { sched := sched', retval := true, task := t, cont := none }
  | .dataStoreNoSpace =>
    (attachResultBuffer cfg g t).map (fun r =>
      let t' := { t with oitems_nums := r.oitems_nums,
                         kresults_max_items := 0,
                         kresults_in_nitems := 0,
                         pds_dst := some r.dst }
      { sched := { sched with pending := t' :: sched.pending },
        retval := false, task := t', cont := none })
  | .other _ =>
    .ok { sched := sched, retval := true, task := t, cont := none }

/-! ## 5. Kernel launch sequence of one task (`__gpujoin_task_process`)

The enqueue phase walks `depth = outer_join_start_depth .. num_rels` in
order; per depth it launches the preparation kernel, then — when the
task has a source chunk or the depth lies beyond the start depth — the
probe kernel (nest-loop or hash), and for `JOIN_RIGHT`/`JOIN_FULL`
depths gathers the outer-join maps of the other devices
(`multirels_colocate_outer_join_maps`) and launches the outer-join
sweep kernel; a single projection kernel follows the loop.  Everything
is enqueued on the one CUDA stream of the task. -/

/-- Observable enqueue events of `__gpujoin_task_process`, in stream
order. -/
inductive KernelEv
  | prep (depth : Nat)
  | probeNestLoop (depth : Nat)
  | probeHashJoin (depth : Nat)
  | colocateOJMap (depth : Nat)
  | sweepNestLoop (depth : Nat)
  | sweepHashJoin (depth : Nat)
  | projection
deriving DecidableEq, Repr

/-- Static per-depth plan data the launch loop reads. -/
structure DepthPlan where
  join_type : JoinType
  /-- `!istate->hash_outer_keys` -/
  is_nestloop : Bool
deriving DecidableEq, Repr

/-- Events enqueued for one depth of the launch loop. -/
def depthLaunches (startDepth : Nat) (hasSrc : Bool) (depth : Nat)
    (d : DepthPlan) : List KernelEv :=
  KernelEv.prep depth ::
    (if d.is_nestloop then
      (if hasSrc ∨ depth > startDepth then [KernelEv.probeNestLoop depth]
       else []) ++
      (if d.join_type = JoinType.right ∨ d.join_type = JoinType.full then
        [KernelEv.colocateOJMap depth, KernelEv.sweepNestLoop depth]
       else [])
     else
      (if hasSrc ∨ depth > startDepth then [KernelEv.probeHashJoin depth]
       else []) ++
      (if d.join_type = JoinType.right ∨ d.join_type = JoinType.full then
        [KernelEv.colocateOJMap depth, KernelEv.sweepHashJoin depth]
       else []))

/-- The full enqueue sequence of `__gpujoin_task_process`:
`hasSrc` is `pds_src != NULL` (false exactly for the terminal OUTER
JOIN task), `startDepth` is `gjs->outer_join_start_depth`, and depth
`i+1` uses `gjs->inners[i]`. -/
def taskProcessLaunches (inners : List DepthPlan) (startDepth : Nat)
    (hasSrc : Bool) : List KernelEv :=
  ((inners.enum.filter (fun p => startDepth ≤ p.1 + 1)).map
      (fun p => depthLaunches startDepth hasSrc (p.1 + 1) p.2)).flatten ++
    [KernelEv.projection]

/-! ## 6. Concrete instances used to exercise the definitions -/

/-- Whether an `Except` computation succeeded. -/
def isOkE : Except ε α → Bool
  | .ok _ => true
  | .error _ => false

/-- A small, fully concrete sizing configuration (identity alignment,
unit safety margin) for evaluating the estimator on closed inputs. -/
def sampleConfig : SizingConfig :=
  { chunk_size := 2 ^ 20, chunk_size_limit := 2 ^ 22, margin := 1,
    SA := id, kgjoin_head := 64, resbuf0 := 16, kds_head := 64,
    slot_width := 16, ncols := 2 }

/-- Sample planner/run-time statistics: one inner depth, nothing
processed yet. -/
def sampleStats : GJStats :=
  { num_rels := 1, source_nitems := 0, outer_nitems := [0, 0],
    kresults_ratio_plan := 1, dst_nrows_ratio_plan := 1,
    outer_plan_nrows := 1000 }

/-- An empty scheduler state. -/
def sampleSched : Sched :=
  { pending := [], source_nitems := 0, outer_nitems := [0, 0] }

/-- A destination buffer left behind by a failed attempt: 80 rows and
5000 bytes written into a 10000-byte store. -/
def samplePrevDst : DstState :=
  { length := 10000, nrooms := 100, nitems := 80, usage := 5000 }

/-- A task that came back with `StromError_DataStoreNoSpace`: it owns a
destination buffer whose previous attempt consumed 50 result items and
80 destination rows out of 100 admitted outer rows. -/
def sampleNoSpaceTask : PGJoin :=
  { id := 3, errcode := .dataStoreNoSpace, oitems_base := 0,
    oitems_nums := 100, src_chunk := some 5, src_nitems := 100,
    kresults_max_items := 50, kresults_in_nitems := 7,
    kern_outer_nitems := [100, 80],
    pds_dst := some samplePrevDst }

/-- A configuration with a small chunk-size ceiling, under which a
100-item result buffer cannot fit. -/
def tinyConfig : SizingConfig :=
  { chunk_size := 100, chunk_size_limit := 2 ^ 22, margin := 1,
    SA := id, kgjoin_head := 10, resbuf0 := 8, kds_head := 8,
    slot_width := 4, ncols := 1 }

/-- A successfully completed task that admitted only 60 of its outer
chunk's 100 rows. -/
def sampleSuccessTask : PGJoin :=
  { id := 1, errcode := .success, oitems_base := 0, oitems_nums := 60,
    src_chunk := some 5, src_nitems := 100, kresults_max_items := 0,
    kresults_in_nitems := 0, kern_outer_nitems := [60, 30],
    pds_dst := some { length := 10000, nrooms := 100, nitems := 30,
                      usage := 2000 } }

/-! ## Theorems -/

/-- **C1** — the claim states that the odometer of
`gpujoin_inner_preload` increments the least-significant depth with
remaining SubChunks, resets all less-significant depths, and that the
next `InnerRelationSet` is built from the SubChunks currently selected
by the odometer, giving exactly-once coverage of every (outer chunk,
inner window) pair.  The code violates this twice.  First, the reset
loop body writes `gjs->inners[i].pds_index = 1` instead of
`gjs->inners[j].pds_index = 1`, so whenever an advanceable depth is
followed by any less-significant depth the just-incremented entry is
overwritten back to 1 and the state does not change at all: with batch
lengths `[2, 1]` the advance returns the very state it was given, so the
scan loops forever re-visiting the same window, while the spec's
odometer advances to `[2, 1]`.  Second, the window is built from
`linitial(istate->pds_list)` ignoring `pds_index`: with a single depth
holding SubChunks `[10, 20]`, the run enumerates window `10` twice and
never visits `20`, where the spec enumerates `10` then `20`; with the
two-depth layout the run keeps producing the same window for as much
fuel as it is given, while the spec's enumeration covers both
combinations and stops. -/
theorem C1_odometer_bug :
    advanceCode [⟨1, 2⟩, ⟨1, 1⟩] = some [⟨1, 2⟩, ⟨1, 1⟩] ∧
    advanceSpec [⟨1, 2⟩, ⟨1, 1⟩] = some [⟨2, 2⟩, ⟨1, 1⟩] ∧
    enumWindows advanceCode windowCode [[10, 20]] 5 (initOdometer [2]) =
      [[some 10], [some 10]] ∧
    enumWindows advanceSpec windowSpec [[10, 20]] 5 (initOdometer [2]) =
      [[some 10], [some 20]] ∧
    enumWindows advanceCode windowCode [[10, 20], [30]] 4 (initOdometer [2, 1]) =
      [[some 10, some 30], [some 10, some 30], [some 10, some 30],
       [some 10, some 30]] ∧
    enumWindows advanceSpec windowSpec [[10, 20], [30]] 4 (initOdometer [2, 1]) =
      [[some 10, some 30], [some 20, some 30]] := by decide

/-- **C5** — the claim states that the outer-join sweep kernel is
launched only for right/full-outer-join depths whose window is the last
remaining reference (i.e. only in the terminal OUTER JOIN task, which
has `pds_src == NULL`).  In the code, the launch condition for
`gpujoin_outer_nestloop` / `gpujoin_outer_hashjoin` is merely
`join_type == JOIN_RIGHT || join_type == JOIN_FULL`, with no
`pds_src == NULL` test: an ordinary task that carries an outer source
chunk (`hasSrc = true`), executing while other holders still reference
the window, also enqueues the colocation and the sweep kernel at every
RIGHT/FULL depth — here a single right-outer hash depth. -/
theorem C5_sweep_launched_in_normal_task :
    taskProcessLaunches [⟨JoinType.right, false⟩] 1 true =
      [KernelEv.prep 1, KernelEv.probeHashJoin 1, KernelEv.colocateOJMap 1,
       KernelEv.sweepHashJoin 1, KernelEv.projection] ∧
    KernelEv.sweepHashJoin 1 ∈ taskProcessLaunches [⟨JoinType.right, false⟩] 1 true := by
  decide

/-- **C9** — during histogram repartitioning, whenever the greedy
accumulation reaches a bucket that alone exceeds the byte budget while
the accumulated size is still zero, the loader fails with the fatal
`"Too extreme hash-key distribution"` error (an `elog(ERROR)` that
aborts the scan and reaches the consumer; no alternative path is taken),
both at an arbitrary point of the pass and from the top. -/
theorem C9_extreme_skew_fatal (limit shift i hash_min bucket : Nat)
    (rest : List Nat) (h : limit < bucket) :
    partitionTSAux limit shift (bucket :: rest) i hash_min 0 =
      .error "Too extreme hash-key distribution" ∧
    partitionTS limit shift (bucket :: rest) =
      .error "Too extreme hash-key distribution" := by
  refine ⟨?_, ?_⟩ <;> simp [partitionTS, partitionTSAux, h]

/-- Witness for `C9_extreme_skew_fatal`: budget 1, first bucket 2. -/
theorem C9_extreme_skew_fatal_witness :
    partitionTS 1 31 [2] = .error "Too extreme hash-key distribution" :=
  (C9_extreme_skew_fatal 1 31 0 0 2 [] (by decide)).2

/-- **C3 counterexample** — the claim asserts (a) that a RIGHT-outer
hash depth whose budget is reached spills to a tuplestore and
repartitions (overflow chunks being permitted only for plain inner
joins), and (b) that sealed hash ranges always cleanly partition the
hash space.  Both fail on the code: (a) `gpujoin_inner_hash_preload`
sends `JOIN_RIGHT` through the same overflow-chunk branch as
`JOIN_INNER`; (b) when the greedy pass seals a chunk at the final
histogram bucket (budget 10, bucket sizes `[5, 6]`, shift 31), the
`cl_uint` boundary `hash_min = hash_max + 1` wraps to 0 and the
trailing chunk spans the whole space again, so hash value 0 lies in
two SubChunks' ranges. -/
theorem C3_right_depth_not_repartitioned :
    (hashPreloadOverflowAction JoinType.right = OverflowAction.extendChunkList ∧
     hashPreloadOverflowAction JoinType.right ≠ OverflowAction.spillToTupleStore) ∧
    (partitionTS 10 31 [5, 6] = .ok [(0, UINT_MAX), (0, UINT_MAX)] ∧
     ¬ (∃! k : Nat, ∃ l u, [((0 : Nat), UINT_MAX), (0, UINT_MAX)][k]? = some (l, u) ∧
          l ≤ 0 ∧ 0 ≤ u)) := by
  refine ⟨by decide, by decide, ?_⟩
  rintro ⟨k, -, huniq⟩
  have h0 : (0 : Nat) = k := huniq 0 ⟨0, UINT_MAX, by decide⟩
  have h1 : (1 : Nat) = k := huniq 1 ⟨0, UINT_MAX, by decide⟩
  omega

/-- `partitionTSAux` never returns an empty range list. -/
theorem partitionTSAux_ne_nil {limit shift : Nat} (bs : List Nat) :
    ∀ i hmin curr rs,
      partitionTSAux limit shift bs i hmin curr = .ok rs → rs ≠ [] := by
  induction bs with
  | nil =>
      intro i hmin curr rs h
      simp only [partitionTSAux] at h
      cases h
      simp
  | cons next rest ih =>
      intro i hmin curr rs h
      simp only [partitionTSAux] at h
      by_cases hseal : curr + next > limit
      · rw [if_pos hseal] at h
        by_cases hz : curr = 0
        · rw [if_pos hz] at h; cases h
        · rw [if_neg hz] at h
          cases hrec : partitionTSAux limit shift rest (i + 1)
              ((((i + 1) * 2 ^ shift - 1) % 2 ^ 32 + 1) % 2 ^ 32) next with
          | error e => rw [hrec] at h; cases h
          | ok rs' => rw [hrec] at h; cases h; simp
      · rw [if_neg hseal] at h
        exact ih (i + 1) hmin (curr + next) rs h

/-- `partitionTSAux`, started consistently, returns a chain of
consecutive intervals reaching `UINT_MAX` — provided no sealed
boundary hits `UINT_MAX` itself (no seal at the final bucket, so the
`cl_uint` boundary arithmetic never wraps). -/
theorem partitionTSAux_covers {limit shift : Nat} (bs : List Nat) :
    ∀ i hmin curr rs,
      partitionTSAux limit shift bs i hmin curr = .ok rs →
      hmin ≤ i * 2 ^ shift →
      hmin ≤ UINT_MAX →
      (i + bs.length) * 2 ^ shift ≤ 2 ^ 32 →
      (∀ r ∈ rs.dropLast, r.2 < UINT_MAX) →
      CoversFrom rs hmin := by
  induction bs with
  | nil =>
      intro i hmin curr rs h _ h2 _ _
      simp only [partitionTSAux] at h
      cases h
      exact CoversFrom.last h2
  | cons next rest ih =>
      intro i hmin curr rs h h1 h2 h3 h4
      simp only [partitionTSAux] at h
      by_cases hseal : curr + next > limit
      · rw [if_pos hseal] at h
        by_cases hz : curr = 0
        · rw [if_pos hz] at h; cases h
        · rw [if_neg hz] at h
          cases hrec : partitionTSAux limit shift rest (i + 1)
              ((((i + 1) * 2 ^ shift - 1) % 2 ^ 32 + 1) % 2 ^ 32) next with
          | error e => rw [hrec] at h; cases h
          | ok rs' =>
              rw [hrec] at h
              cases h
              have hpow : (1 : Nat) ≤ 2 ^ shift := Nat.one_le_two_pow
              have hle32 : (i + 1) * 2 ^ shift ≤ 2 ^ 32 := by
                refine le_trans (Nat.mul_le_mul_right _ ?_) h3
                simp [Nat.succ_le_succ, Nat.le_add_right]
              have hpos : 0 < (i + 1) * 2 ^ shift :=
                Nat.mul_pos (Nat.succ_pos i) (Nat.pos_of_ne_zero (by positivity))
              have hmlt : (i + 1) * 2 ^ shift - 1 < 2 ^ 32 :=
                lt_of_lt_of_le (Nat.sub_lt hpos Nat.one_pos) hle32
              have hm_eq : ((i + 1) * 2 ^ shift - 1) % 2 ^ 32 =
                  (i + 1) * 2 ^ shift - 1 := Nat.mod_eq_of_lt hmlt
              have hrs'ne : rs' ≠ [] :=
                partitionTSAux_ne_nil rest _ _ _ _ hrec
              have hdrop :
                  ((hmin, ((i + 1) * 2 ^ shift - 1) % 2 ^ 32) :: rs').dropLast =
                    (hmin, ((i + 1) * 2 ^ shift - 1) % 2 ^ 32) :: rs'.dropLast := by
                cases rs' with
                | nil => exact absurd rfl hrs'ne
                | cons a l => simp [List.dropLast]
              have hm_lt : ((i + 1) * 2 ^ shift - 1) % 2 ^ 32 < UINT_MAX := by
                have := h4 (hmin, ((i + 1) * 2 ^ shift - 1) % 2 ^ 32)
                  (by rw [hdrop]; exact List.mem_cons_self _ _)
                exact this
              have humax : (2 : Nat) ^ 32 = UINT_MAX + 1 := by decide
              have hm1lt : ((i + 1) * 2 ^ shift - 1) % 2 ^ 32 + 1 < 2 ^ 32 := by
                rw [humax]; exact Nat.add_lt_add_right hm_lt 1
              have hmod1 : (((i + 1) * 2 ^ shift - 1) % 2 ^ 32 + 1) % 2 ^ 32 =
                  ((i + 1) * 2 ^ shift - 1) % 2 ^ 32 + 1 := Nat.mod_eq_of_lt hm1lt
              have hmin_le : hmin ≤ ((i + 1) * 2 ^ shift - 1) % 2 ^ 32 := by
                rw [hm_eq]
                refine le_trans h1 (Nat.le_pred_of_lt ?_)
                exact (Nat.mul_lt_mul_right (Nat.lt_of_lt_of_le Nat.one_pos hpow)).2
                  (Nat.lt_succ_self i)
              have hnext_eq : ((i + 1) * 2 ^ shift - 1) % 2 ^ 32 + 1 =
                  (i + 1) * 2 ^ shift := by
                rw [hm_eq]; exact Nat.succ_pred_eq_of_pos hpos
              have hsub : CoversFrom rs' (((i + 1) * 2 ^ shift - 1) % 2 ^ 32 + 1) := by
                refine ih (i + 1) _ next rs' (by rw [hmod1] at hrec; exact hrec)
                  (le_of_eq hnext_eq) ?_ ?_ ?_
                · rw [humax] at hle32
                  rw [hnext_eq]
                  omega
                · have : i + (next :: rest).length = i + 1 + rest.length := by
                    simp [Nat.add_comm, Nat.add_assoc, Nat.add_left_comm]
                  rw [this] at h3
                  exact h3
                · intro r hr
                  refine h4 r ?_
                  rw [hdrop]
                  exact List.mem_cons_of_mem _ hr
              exact CoversFrom.cons hmin_le hm_lt hsub
      · rw [if_neg hseal] at h
        refine ih (i + 1) hmin (curr + next) rs h ?_ h2 ?_ h4
        · exact le_trans h1 (Nat.mul_le_mul_right _ (Nat.le_succ i))
        · have : i + (next :: rest).length = i + 1 + rest.length := by
            simp [Nat.add_comm, Nat.add_assoc, Nat.add_left_comm]
          rw [this] at h3
          exact h3

/-- A successful indexed lookup is a membership. -/
theorem mem_of_getElem_some {α : Type} {l : List α} :
    ∀ {n : Nat} {a : α}, l[n]? = some a → a ∈ l := by
  induction l with
  | nil => intro n a h; simp at h
  | cons hd tl ih =>
      intro n a h
      cases n with
      | zero =>
          simp only [List.getElem?_cons_zero, Option.some.injEq] at h
          exact h ▸ List.mem_cons_self hd tl
      | succ m =>
          simp only [List.getElem?_cons_succ] at h
          exact List.mem_cons_of_mem hd (ih h)

/-- In a `CoversFrom` chain every interval starts at or above the
chain's base. -/
theorem coversFrom_lo_le {rs : List (Nat × Nat)} {lo : Nat}
    (hc : CoversFrom rs lo) : ∀ r ∈ rs, lo ≤ r.1 := by
  induction hc with
  | @last lo hlo =>
      intro r hr
      simp only [List.mem_singleton] at hr
      subst hr; exact le_refl _
  | @cons lo hi rest h₁ h₂ h₃ ih =>
      intro r hr
      rcases List.mem_cons.1 hr with rfl | hr
      · exact le_refl _
      · exact le_trans (le_trans h₁ (Nat.le_succ hi)) (ih r hr)

/-- In a `CoversFrom` chain, every value of the covered segment lies in
exactly one interval. -/
theorem coversFrom_unique {rs : List (Nat × Nat)} {lo : Nat}
    (hc : CoversFrom rs lo) :
    ∀ h, lo ≤ h → h ≤ UINT_MAX →
      ∃! k : Nat, ∃ l u, rs[k]? = some (l, u) ∧ l ≤ h ∧ h ≤ u := by
  induction hc with
  | @last lo hlo =>
      intro h hl hu
      refine ⟨0, ⟨lo, UINT_MAX, by simp, hl, hu⟩, ?_⟩
      rintro y ⟨l, u, hy, -, -⟩
      cases y with
      | zero => rfl
      | succ n => simp at hy
  | @cons lo hi rest h₁ h₂ h₃ ih =>
      intro h hl hu
      by_cases hh : h ≤ hi
      · refine ⟨0, ⟨lo, hi, by simp, hl, hh⟩, ?_⟩
        rintro y ⟨l, u, hy, hlh, hhu⟩
        cases y with
        | zero => rfl
        | succ n =>
            simp only [List.getElem?_cons_succ] at hy
            have hmem : (l, u) ∈ rest := mem_of_getElem_some hy
            have := coversFrom_lo_le h₃ _ hmem
            simp only at this
            omega
      · have hge : hi + 1 ≤ h := by omega
        obtain ⟨k, hk, huniq⟩ := ih h hge hu
        obtain ⟨l, u, hgk, hl1, hh2⟩ := hk
        refine ⟨k + 1, ⟨l, u, by simpa using hgk, hl1, hh2⟩, ?_⟩
        rintro y ⟨l', u', hy, hlh, hhu⟩
        cases y with
        | zero =>
            simp only [List.getElem?_cons_zero, Option.some.injEq] at hy
            cases hy
            omega
        | succ n =>
            simp only [List.getElem?_cons_succ] at hy
            have : n = k := huniq n ⟨l', u', hy, hlh, hhu⟩
            omega

/-- The first-match routing pass sends a value of the covered segment
to an interval that contains it. -/
theorem routeHash_covers {rs : List (Nat × Nat)} {lo : Nat}
    (hc : CoversFrom rs lo) :
    ∀ h, lo ≤ h → h ≤ UINT_MAX →
      ∃ k : Nat, ∃ l u, routeHash rs h = some k ∧ rs[k]? = some (l, u) ∧
        l ≤ h ∧ h ≤ u := by
  induction hc with
  | @last lo hlo =>
      intro h hl hu
      exact ⟨0, lo, UINT_MAX, by simp [routeHash, hu], by simp, hl, hu⟩
  | @cons lo hi rest h₁ h₂ h₃ ih =>
      intro h hl hu
      by_cases hh : h ≤ hi
      · exact ⟨0, lo, hi, by simp [routeHash, hh], by simp, hl, hh⟩
      · obtain ⟨k, l, u, hr, hg, hlh, hhu⟩ := ih h (by omega) hu
        exact ⟨k + 1, l, u, by simp [routeHash, hh, hr], by simpa using hg,
          hlh, hhu⟩

/-- **C3 amended** — the tuplestore spill-and-repartition applies
exactly to LEFT and FULL outer hash depths (INNER and RIGHT depths open
an additional overflow chunk instead), and the sealed hash ranges of a
repartitioned depth form a clean partition of the 32-bit hash space —
every hash value lies in exactly one SubChunk's range, and the routing
pass places the row there — provided the greedy pass does not seal a
chunk at the final histogram bucket (all sealed boundaries lie strictly
below `UINT_MAX`; otherwise the `cl_uint` boundary wraps, as the
counterexample shows). -/
theorem C3_partition_amended :
    (∀ jt, hashPreloadOverflowAction jt = OverflowAction.spillToTupleStore ↔
        (jt = JoinType.left ∨ jt = JoinType.full)) ∧
    (∀ limit shift hgram ranges,
        partitionTS limit shift hgram = .ok ranges →
        hgram.length * 2 ^ shift ≤ 2 ^ 32 →
        (∀ r ∈ ranges.dropLast, r.2 < UINT_MAX) →
        ∀ h, h ≤ UINT_MAX →
          (∃! k : Nat, ∃ l u, ranges[k]? = some (l, u) ∧ l ≤ h ∧ h ≤ u) ∧
          (∃ k : Nat, ∃ l u, routeHash ranges h = some k ∧
            ranges[k]? = some (l, u) ∧ l ≤ h ∧ h ≤ u)) := by
  constructor
  · intro jt
    cases jt <;> simp [hashPreloadOverflowAction]
  · intro limit shift hgram ranges hok hlen hdrop h hle
    have hcov : CoversFrom ranges 0 :=
      partitionTSAux_covers hgram 0 0 0 ranges hok (Nat.zero_le _)
        (Nat.zero_le _) (by simpa using hlen) hdrop
    exact ⟨coversFrom_unique hcov h (Nat.zero_le _) hle,
           routeHash_covers hcov h (Nat.zero_le _) hle⟩

/-- Witness for `C3_partition_amended`: a FULL-outer depth spills; with
budget 10, shift 31 and histogram `[3, 4]` the repartition yields the
single range `[0, UINT_MAX]`, and hash value 7 lies in exactly one
range. -/
theorem C3_partition_amended_witness :
    hashPreloadOverflowAction JoinType.full = OverflowAction.spillToTupleStore ∧
    (∃! k : Nat, ∃ l u, [((0 : Nat), UINT_MAX)][k]? = some (l, u) ∧ l ≤ 7 ∧ 7 ≤ u) := by
  constructor
  · exact (C3_partition_amended.1 JoinType.full).mpr (Or.inr rfl)
  · exact (C3_partition_amended.2 10 31 [3, 4] [(0, UINT_MAX)] (by decide)
      (by decide) (by simp) 7 (by decide)).1

/-- Indexed read-back of an indexed write on a `getD`-style list. -/
theorem getD_set_iff {α : Type} [Inhabited α] (l : List α) (i j : Nat) (a : α) :
    (l.set i a).getD j default =
      if j = i ∧ i < l.length then a else l.getD j default := by
  by_cases h1 : j = i
  · subst h1
    by_cases h2 : j < l.length
    · simp [List.getD_eq_getElem?_getD, List.getElem?_set_self h2, h2]
    · rw [List.set_eq_of_length_le (Nat.le_of_not_lt h2)]
      simp [h2]
  · simp [List.getD_eq_getElem?_getD,
      List.getElem?_set_ne (fun he => h1 he.symm), h1]

/-- No operation but a detach changes the sweep counter, and the
`outer_join_kicked` latch never falls back to `false`. -/
theorem stepMR_sweep_kick_invariant (s : MRState) (op : MROp)
    (h : s.sweeps_enqueued ≤ if s.outer_join_kicked then 1 else 0) :
    (stepMR s op).sweeps_enqueued ≤
      if (stepMR s op).outer_join_kicked then 1 else 0 := by
  cases op with
  | attach =>
      simp only [stepMR, stepAttach]
      split <;> simpa using h
  | detach mk =>
      simp only [stepMR, stepDetach]
      by_cases h0 : s.n_attached = 0
      · simpa [h0] using h
      · by_cases hc : (mk = true) ∧ s.n_attached = 1 ∧ ¬s.outer_join_kicked
        · have hs : s.sweeps_enqueued = 0 := by
            simpa [hc.2.2] using h
          simp only [if_neg h0, if_pos hc]
          split <;> simp [hs]
        · simp only [if_neg h0, if_neg hc]
          split <;> simpa using h
  | get d ok =>
      simp only [stepMR, stepGet]
      split_ifs <;> simp_all
  | put d =>
      simp only [stepMR, stepPut]
      split_ifs <;> simp_all
  | send d =>
      simp only [stepMR, stepSend]
      split_ifs <;> simp_all

/-- The sweep/kick invariant carried along a whole run. -/
theorem runMR_sweep_kick_invariant (ops : List MROp) :
    ∀ s : MRState,
      s.sweeps_enqueued ≤ (if s.outer_join_kicked then 1 else 0) →
      (runMR s ops).sweeps_enqueued ≤
        (if (runMR s ops).outer_join_kicked then 1 else 0) := by
  induction ops with
  | nil => intro s h; simpa [runMR] using h
  | cons op rest ih =>
      intro s h
      simp only [runMR, List.foldl_cons]
      exact ih (stepMR s op) (stepMR_sweep_kick_invariant s op h)

/-- **C2** — over any sequence of attach/detach/get/put/send operations
on one `pgstrom_multirels`, at most one terminal OUTER JOIN sweep task
is ever enqueued; a detach enqueues it exactly when the caller passes
`may_kick_outer_join`, the caller is the last holder
(`n_attached == 1`) and `outer_join_kicked` is still clear (the flag is
then latched, so no second sweep can follow); and no other operation —
in particular not a detach with the flag `false`, the `gpujoin_rescan`
and `gpujoin_end` path — ever enqueues one. -/
theorem C2_sweep_exactly_once :
    (∀ ndevs hasOjmap ops,
      (runMR (initMR ndevs hasOjmap) ops).sweeps_enqueued ≤ 1) ∧
    (∀ s mk, (stepDetach mk s).sweeps_enqueued =
      s.sweeps_enqueued +
        (if mk ∧ s.n_attached = 1 ∧ ¬s.outer_join_kicked then 1 else 0)) ∧
    (∀ s, (stepAttach s).sweeps_enqueued = s.sweeps_enqueued) ∧
    (∀ s d ok, (stepGet d ok s).sweeps_enqueued = s.sweeps_enqueued) ∧
    (∀ s d, (stepPut d s).sweeps_enqueued = s.sweeps_enqueued) ∧
    (∀ s d, (stepSend d s).sweeps_enqueued = s.sweeps_enqueued) := by
  refine ⟨?_, ?_, ?_, ?_, ?_, ?_⟩
  · intro ndevs hasOjmap ops
    have h := runMR_sweep_kick_invariant ops (initMR ndevs hasOjmap)
      (by simp [initMR])
    split at h
    · exact h
    · exact le_trans h (Nat.zero_le 1)
  · intro s mk
    simp only [stepDetach]
    by_cases h0 : s.n_attached = 0
    · simp [h0]
    · by_cases hc : (mk = true) ∧ s.n_attached = 1 ∧ ¬s.outer_join_kicked
      · simp only [if_neg h0, if_pos hc]
        split <;> simp [hc]
      · simp only [if_neg h0, if_neg hc]
        split <;> simp [hc]
  · intro s
    simp only [stepAttach]
    split <;> simp
  · intro s d ok
    simp only [stepGet]
    split_ifs <;> simp
  · intro s d
    simp only [stepPut]
    split_ifs <;> simp
  · intro s d
    simp only [stepSend]
    split_ifs <;> simp

/-- `getD` through a `map` whose function fixes the default. -/
theorem getD_map_eq {α : Type} [Inhabited α] (f : α → α)
    (hf : f default = default) (l : List α) (d : Nat) :
    (l.map f).getD d default = f (l.getD d default) := by
  cases hcase : l[d]? with
  | none => simp [List.getD_eq_getElem?_getD, List.getElem?_map, hcase, hf]
  | some a => simp [List.getD_eq_getElem?_getD, List.getElem?_map, hcase]

/-- Clearing the outer-join-map pointers fixes the all-zero slice. -/
theorem ojclear_default :
    (fun dv : DevState => { dv with m_ojmaps := false }) default = default := rfl

/-- Reading back the device slice just written. -/
theorem dev_set_self (s : MRState) (d : Nat) (dv : DevState)
    (hd : d < s.devs.length) :
    MRState.dev { s with devs := s.devs.set d dv } d = dv := by
  simp only [MRState.dev, getD_set_iff]
  simp [hd]

/-- One step preserves "the device mirror exists iff some task holds a
reference on that device". -/
theorem mirror_iff_refcnt_step (s : MRState) (op : MROp)
    (h : ∀ d, ((s.dev d).m_kmrels = true ↔ 0 < (s.dev d).refcnt)) :
    ∀ d, (((stepMR s op).dev d).m_kmrels = true ↔
      0 < ((stepMR s op).dev d).refcnt) := by
  cases op with
  | attach =>
      intro d
      simp only [stepMR, stepAttach]
      split <;> simpa [MRState.dev] using h d
  | detach mk =>
      intro d
      simp only [stepMR, stepDetach]
      by_cases h0 : s.n_attached = 0
      · rw [if_pos h0]; exact h d
      · rw [if_neg h0]
        by_cases hc : (mk = true) ∧ s.n_attached = 1 ∧ ¬s.outer_join_kicked
        · rw [if_pos hc]
          split <;> simp only [MRState.dev] <;>
            first
            | (rw [getD_map_eq _ ojclear_default]
               simpa [MRState.dev] using h d)
            | simpa [MRState.dev] using h d
        · rw [if_neg hc]
          split <;> simp only [MRState.dev] <;>
            first
            | (rw [getD_map_eq _ ojclear_default]
               simpa [MRState.dev] using h d)
            | simpa [MRState.dev] using h d
  | get dg ok =>
      intro d
      simp only [stepMR, stepGet]
      split
      · exact h d
      · split
        · split
          · simp only [MRState.dev, getD_set_iff]
            split
            · split <;> simp
            · exact h d
          · exact h d
        · simp only [MRState.dev, getD_set_iff]
          split
          · rename_i hcond hd
            exact ⟨fun _ => Nat.succ_pos _,
                   fun _ => (h dg).2 (Nat.pos_of_ne_zero hcond)⟩
          · exact h d
  | put dp =>
      intro d
      simp only [stepMR, stepPut]
      split
      · exact h d
      · split
        · exact h d
        · split
          · simp only [MRState.dev, getD_set_iff]
            split
            · simp
            · exact h d
          · simp only [MRState.dev, getD_set_iff]
            split
            · rename_i hcond hz hd
              exact ⟨fun _ => Nat.pos_of_ne_zero hz,
                     fun _ => (h dp).2 (Nat.pos_of_ne_zero hcond)⟩
            · exact h d
  | send ds =>
      intro d
      simp only [stepMR, stepSend]
      split
      · exact h d
      · split
        · exact h d
        · simp only [MRState.dev, getD_set_iff]
          split
          · exact h ds
          · exact h d

/-- The mirror/refcount invariant carried along a whole run. -/
theorem runMR_mirror_iff_refcnt (ops : List MROp) :
    ∀ s : MRState,
      (∀ d, ((s.dev d).m_kmrels = true ↔ 0 < (s.dev d).refcnt)) →
      ∀ d, (((runMR s ops).dev d).m_kmrels = true ↔
        0 < ((runMR s ops).dev d).refcnt) := by
  induction ops with
  | nil => intro s h; simpa [runMR] using h
  | cons op rest ih =>
      intro s h
      simp only [runMR, List.foldl_cons]
      exact ih (stepMR s op) (mirror_iff_refcnt_step s op h)

/-- **C4 counterexample** — the claim says the device mirror of one
`InnerRelationSet` is allocated at most once and its contents uploaded
at most once per device over *any* sequence of operations.  But
`multirels_put_buffer` frees the mirror and destroys the load event the
moment the per-device reference count returns to zero, so a later task
on the same device allocates and uploads again: two tasks running one
after the other (get, send, put, get, send, put) yield two allocations
and two uploads on device 0. -/
theorem C4_mirror_realloc_counterexample :
    ((runMR (initMR 1 false)
        [MROp.get 0 true, MROp.send 0, MROp.put 0,
         MROp.get 0 true, MROp.send 0, MROp.put 0]).dev 0).kmrels_allocs = 2 ∧
    ((runMR (initMR 1 false)
        [MROp.get 0 true, MROp.send 0, MROp.put 0,
         MROp.get 0 true, MROp.send 0, MROp.put 0]).dev 0).uploads = 2 := by
  decide

/-- **C4 amended** — per device, the mirror exists exactly while the
per-device reference count is positive (so it is freed exactly at the
put that releases the last reference, and a get after such a
zero-crossing re-allocates); within one such allocation epoch nothing
is allocated or uploaded again: a get that finds a live reference
reuses mirror and event untouched, and a send that finds the recorded
load event waits on it instead of re-uploading. -/
theorem C4_mirror_epoch_amended :
    (∀ ndevs hasOjmap ops d,
      (((runMR (initMR ndevs hasOjmap) ops).dev d).m_kmrels = true ↔
        0 < ((runMR (initMR ndevs hasOjmap) ops).dev d).refcnt)) ∧
    (∀ s d ok, 0 < (s.dev d).refcnt →
      ((stepGet d ok s).dev d).kmrels_allocs = (s.dev d).kmrels_allocs ∧
      ((stepGet d ok s).dev d).m_kmrels = (s.dev d).m_kmrels ∧
      ((stepGet d ok s).dev d).uploads = (s.dev d).uploads ∧
      ((stepGet d ok s).dev d).ev_loaded = (s.dev d).ev_loaded) ∧
    (∀ s d, (s.dev d).ev_loaded = true → stepSend d s = s) ∧
    (∀ s d, s.n_attached ≠ 0 → 0 < (s.dev d).refcnt → d < s.devs.length →
      ((stepPut d s).dev d).refcnt = (s.dev d).refcnt - 1 ∧
      ((stepPut d s).dev d).m_kmrels =
        (if (s.dev d).refcnt = 1 then false else (s.dev d).m_kmrels) ∧
      ((stepPut d s).dev d).ev_loaded =
        (if (s.dev d).refcnt = 1 then false else (s.dev d).ev_loaded)) := by
  refine ⟨?_, ?_, ?_, ?_⟩
  · intro ndevs hasOjmap ops d
    refine runMR_mirror_iff_refcnt ops (initMR ndevs hasOjmap) ?_ d
    intro d'
    have hdef : (initMR ndevs hasOjmap).dev d' = default := by
      simp only [initMR, MRState.dev, List.getD_eq_getElem?_getD]
      cases hcase : (List.replicate ndevs (default : DevState))[d']? with
      | none => simp
      | some a =>
          have := List.eq_of_mem_replicate (mem_of_getElem_some hcase)
          simp [this]
    rw [hdef]
    decide
  · intro s d ok hpos
    simp only [stepGet]
    split
    · exact ⟨rfl, rfl, rfl, rfl⟩
    · split
      · rename_i hz
        omega
      · simp only [MRState.dev, getD_set_iff]
        split <;> simp [MRState.dev]
  · intro s d hev
    simp [stepSend, hev]
  · intro s d hn hpos hd
    simp only [stepPut]
    rw [if_neg hn]
    split
    · rename_i hz
      omega
    · split
      · rename_i hz1
        have h1 : (s.dev d).refcnt = 1 := by omega
        rw [dev_set_self _ _ _ hd]
        simp [h1]
      · rename_i hz1
        have h1 : ¬((s.dev d).refcnt = 1) := by omega
        rw [dev_set_self _ _ _ hd]
        simp [h1]

/-- Witness for `C4_mirror_epoch_amended`, exercised on a one-device
buffer after a get and a send: a second get of the live mirror keeps
the allocation count at 1, a second send is a no-op, and the final put
drops the count to zero. -/
theorem C4_mirror_epoch_amended_witness :
    ((stepGet 0 true (runMR (initMR 1 true) [MROp.get 0 true, MROp.send 0])).dev 0).kmrels_allocs =
      ((runMR (initMR 1 true) [MROp.get 0 true, MROp.send 0]).dev 0).kmrels_allocs ∧
    stepSend 0 (runMR (initMR 1 true) [MROp.get 0 true, MROp.send 0]) =
      runMR (initMR 1 true) [MROp.get 0 true, MROp.send 0] ∧
    ((stepPut 0 (runMR (initMR 1 true) [MROp.get 0 true, MROp.send 0])).dev 0).refcnt = 0 := by
  refine ⟨(C4_mirror_epoch_amended.2.1 _ 0 true (by decide)).1,
          C4_mirror_epoch_amended.2.2.1 _ 0 (by decide), ?_⟩
  have h := (C4_mirror_epoch_amended.2.2.2
    (runMR (initMR 1 true) [MROp.get 0 true, MROp.send 0]) 0
    (by decide) (by decide) (by decide)).1
  rw [h]
  decide

/-- One step preserves "the outer-join map of a live buffer has been
allocated (and zero-cleared) at most once, and not yet if it is absent". -/
theorem ojmap_once_step (s : MRState) (op : MROp)
    (h : ∀ d, (s.dev d).ojmap_allocs ≤ 1 ∧
      (s.n_attached ≠ 0 → (s.dev d).m_ojmaps = false →
        (s.dev d).ojmap_allocs = 0)) :
    ∀ d, ((stepMR s op).dev d).ojmap_allocs ≤ 1 ∧
      ((stepMR s op).n_attached ≠ 0 → ((stepMR s op).dev d).m_ojmaps = false →
        ((stepMR s op).dev d).ojmap_allocs = 0) := by
  cases op with
  | attach =>
      intro d
      simp only [stepMR, stepAttach]
      split
      · exact h d
      · rename_i hn
        exact ⟨(h d).1, fun _ hm => (h d).2 hn hm⟩
  | detach mk =>
      intro d
      simp only [stepMR, stepDetach]
      by_cases h0 : s.n_attached = 0
      · rw [if_pos h0]; exact h d
      · rw [if_neg h0]
        by_cases hc : (mk = true) ∧ s.n_attached = 1 ∧ ¬s.outer_join_kicked
        · rw [if_pos hc]
          split
          · refine ⟨?_, fun hn _ => absurd rfl hn⟩
            simp only [MRState.dev]
            rw [getD_map_eq _ ojclear_default]
            exact (h d).1
          · exact ⟨(h d).1, fun _ hm => (h d).2 h0 hm⟩
        · rw [if_neg hc]
          split
          · refine ⟨?_, fun hn _ => absurd rfl hn⟩
            simp only [MRState.dev]
            rw [getD_map_eq _ ojclear_default]
            exact (h d).1
          · exact ⟨(h d).1, fun _ hm => (h d).2 h0 hm⟩
  | get dg ok =>
      intro d
      simp only [stepMR, stepGet]
      split
      · exact h d
      · rename_i hn
        split
        · split
          · simp only [MRState.dev, getD_set_iff]
            split
            · split
              · rename_i hoj
                have hmf : (s.dev dg).m_ojmaps = false := by
                  cases hb : (s.dev dg).m_ojmaps
                  · rfl
                  · exact absurd hb hoj.2
                have h2 := (h dg).2 hn hmf
                refine ⟨?_, ?_⟩
                · simp only [MRState.dev, List.getD_eq_getElem?_getD] at h2
                  simp [h2]
                · intro _ hm
                  simp at hm
              · exact ⟨(h dg).1, fun _ hm => (h dg).2 hn hm⟩
            · exact ⟨(h d).1, fun _ hm => (h d).2 hn hm⟩
          · exact h d
        · simp only [MRState.dev, getD_set_iff]
          split
          · exact ⟨(h dg).1, fun _ hm => (h dg).2 hn hm⟩
          · exact ⟨(h d).1, fun _ hm => (h d).2 hn hm⟩
  | put dp =>
      intro d
      simp only [stepMR, stepPut]
      split
      · exact h d
      · rename_i hn
        split
        · exact h d
        · split
          · simp only [MRState.dev, getD_set_iff]
            split
            · exact ⟨(h dp).1, fun _ hm => (h dp).2 hn hm⟩
            · exact ⟨(h d).1, fun _ hm => (h d).2 hn hm⟩
          · simp only [MRState.dev, getD_set_iff]
            split
            · exact ⟨(h dp).1, fun _ hm => (h dp).2 hn hm⟩
            · exact ⟨(h d).1, fun _ hm => (h d).2 hn hm⟩
  | send ds =>
      intro d
      simp only [stepMR, stepSend]
      split
      · exact h d
      · rename_i hn
        split
        · exact h d
        · simp only [MRState.dev, getD_set_iff]
          split
          · exact ⟨(h ds).1, fun _ hm => (h ds).2 hn hm⟩
          · exact ⟨(h d).1, fun _ hm => (h d).2 hn hm⟩

/-- The at-most-one-allocation invariant carried along a run. -/
theorem runMR_ojmap_once (ops : List MROp) :
    ∀ s : MRState,
      (∀ d, (s.dev d).ojmap_allocs ≤ 1 ∧
        (s.n_attached ≠ 0 → (s.dev d).m_ojmaps = false →
          (s.dev d).ojmap_allocs = 0)) →
      ∀ d, ((runMR s ops).dev d).ojmap_allocs ≤ 1 := by
  induction ops with
  | nil => intro s h d; simpa [runMR] using (h d).1
  | cons op rest ih =>
      intro s h d
      simp only [runMR, List.foldl_cons]
      exact ih (stepMR s op) (ojmap_once_step s op h) d

/-- **C10** — `multirels_put_buffer` frees only the inner-relations
mirror and the load event: the per-device outer-join map is untouched
by every put; a get that finds the map present re-allocates only the
mirror, never the map (so the match bits accumulated by earlier tasks
survive a free/re-allocate cycle of the mirror); the map is freed
exactly by the detach that drops the process-wide attach count to
zero; and over any run the map is allocated — and therefore
zero-cleared, which happens only inside that allocation — at most once
per device. -/
theorem C10_ojmap_survives_mirror_free :
    (∀ s d d', ((stepPut d s).dev d').m_ojmaps = (s.dev d').m_ojmaps ∧
       ((stepPut d s).dev d').ojmap_allocs = (s.dev d').ojmap_allocs) ∧
    (∀ s d ok, (s.dev d).m_ojmaps = true →
       ((stepGet d ok s).dev d).m_ojmaps = true ∧
       ((stepGet d ok s).dev d).ojmap_allocs = (s.dev d).ojmap_allocs) ∧
    (∀ s mk d, ((stepDetach mk s).dev d).m_ojmaps =
       (if (stepDetach mk s).n_attached = 0 ∧ s.n_attached ≠ 0 then false
        else (s.dev d).m_ojmaps)) ∧
    (∀ s d, ((stepAttach s).dev d).m_ojmaps = (s.dev d).m_ojmaps) ∧
    (∀ s d d', ((stepSend d s).dev d').m_ojmaps = (s.dev d').m_ojmaps) ∧
    (∀ ndevs hasOjmap ops d,
       ((runMR (initMR ndevs hasOjmap) ops).dev d).ojmap_allocs ≤ 1) := by
  refine ⟨?_, ?_, ?_, ?_, ?_, ?_⟩
  · intro s d d'
    simp only [stepPut]
    split
    · exact ⟨rfl, rfl⟩
    · split
      · exact ⟨rfl, rfl⟩
      · split
        · simp only [MRState.dev, getD_set_iff]
          split
          · rename_i hdd
            rw [hdd.1]
            exact ⟨rfl, rfl⟩
          · exact ⟨rfl, rfl⟩
        · simp only [MRState.dev, getD_set_iff]
          split
          · rename_i hdd
            rw [hdd.1]
            exact ⟨rfl, rfl⟩
          · exact ⟨rfl, rfl⟩
  · intro s d ok hm
    simp only [stepGet]
    split
    · exact ⟨hm, rfl⟩
    · split
      · split
        · simp only [MRState.dev, getD_set_iff]
          split
          · split
            · rename_i hoj
              exact absurd hm hoj.2
            · exact ⟨hm, rfl⟩
          · exact ⟨hm, rfl⟩
        · exact ⟨hm, rfl⟩
      · simp only [MRState.dev, getD_set_iff]
        split
        · exact ⟨hm, rfl⟩
        · exact ⟨hm, rfl⟩
  · intro s mk d
    simp only [stepDetach]
    by_cases h0 : s.n_attached = 0
    · rw [if_pos h0]
      simp [h0]
    · rw [if_neg h0]
      by_cases hc : (mk = true) ∧ s.n_attached = 1 ∧ ¬s.outer_join_kicked
      · rw [if_pos hc]
        have hne : ¬(s.n_attached + 1 - 1 = 0) := by omega
        rw [if_neg hne]
        simp [MRState.dev, h0, Nat.add_sub_cancel]
      · rw [if_neg hc]
        by_cases hz : s.n_attached - 1 = 0
        · rw [if_pos hz]
          simp only [MRState.dev]
          rw [getD_map_eq _ ojclear_default]
          simp [h0]
        · rw [if_neg hz]
          simp [MRState.dev, hz, h0]
  · intro s d
    simp only [stepAttach]
    split
    · rfl
    · rfl
  · intro s d d'
    simp only [stepSend]
    split
    · rfl
    · split
      · rfl
      · simp only [MRState.dev, getD_set_iff]
        split
        · rename_i hdd
          rw [hdd.1]
        · rfl
  · intro ndevs hasOjmap ops d
    refine runMR_ojmap_once ops (initMR ndevs hasOjmap) ?_ d
    intro d'
    have hdef : (initMR ndevs hasOjmap).dev d' = default := by
      simp only [initMR, MRState.dev, List.getD_eq_getElem?_getD]
      cases hcase : (List.replicate ndevs (default : DevState))[d']? with
      | none => simp
      | some a =>
          have := List.eq_of_mem_replicate (mem_of_getElem_some hcase)
          simp [this]
    rw [hdef]
    exact ⟨by decide, fun _ _ => by decide⟩

/-- Witness for `C10_ojmap_survives_mirror_free`: on a one-device
buffer whose map was allocated by a first get, a put followed by a
second get leaves the map in place and its allocation count at 1. -/
theorem C10_ojmap_survives_mirror_free_witness :
    ((stepPut 0 (runMR (initMR 1 true) [MROp.get 0 true])).dev 0).m_ojmaps =
      ((runMR (initMR 1 true) [MROp.get 0 true]).dev 0).m_ojmaps ∧
    ((stepGet 0 true (runMR (initMR 1 true) [MROp.get 0 true, MROp.put 0])).dev 0).m_ojmaps = true ∧
    ((stepGet 0 true (runMR (initMR 1 true) [MROp.get 0 true, MROp.put 0])).dev 0).ojmap_allocs =
      ((runMR (initMR 1 true) [MROp.get 0 true, MROp.put 0]).dev 0).ojmap_allocs := by
  refine ⟨(C10_ojmap_survives_mirror_free.1 _ 0 0).1, ?_, ?_⟩
  · exact (C10_ojmap_survives_mirror_free.2.1 _ 0 true (by decide)).1
  · exact (C10_ojmap_survives_mirror_free.2.1 _ 0 true (by decide)).2

/-- Every successful destination sizing hands back a store whose write
cursors (`nitems`, `usage`) are zero. -/
theorem except_map_ok {ε α β : Type} {f : α → β} {x : Except ε α} {b : β}
    (h : x.map f = .ok b) : ∃ a, x = .ok a ∧ f a = b := by
  cases x with
  | error e => simp [Except.map] at h
  | ok a =>
      refine ⟨a, rfl, ?_⟩
      simpa [Except.map] using h

theorem except_bind_ok {ε α β : Type} {x : Except ε α}
    {f : α → Except ε β} {b : β}
    (h : x.bind f = .ok b) : ∃ a, x = .ok a ∧ f a = .ok b := by
  cases x with
  | error e => simp [Except.bind] at h
  | ok a =>
      refine ⟨a, rfl, ?_⟩
      simpa [Except.bind] using h

theorem dstFinalize_resets (cfg : SizingConfig) (prev : Option DstState)
    (p : Nat × Nat) :
    (dstFinalize cfg prev p).2.nitems = 0 ∧
    (dstFinalize cfg prev p).2.usage = 0 := by
  cases prev with
  | none => exact ⟨rfl, rfl⟩
  | some dst =>
      simp only [dstFinalize]
      split
      · exact ⟨rfl, rfl⟩
      · exact ⟨rfl, rfl⟩

theorem dstSizing_resets (cfg : SizingConfig) (dr : ℚ) (oitems : Nat)
    (prev : Option DstState) (o : Nat) (d : DstState)
    (h : dstSizing cfg dr oitems prev = .ok (o, d)) :
    d.nitems = 0 ∧ d.usage = 0 := by
  unfold dstSizing at h
  obtain ⟨p, -, hfin⟩ := except_map_ok h
  have := dstFinalize_resets cfg prev p
  rw [hfin] at this
  exact this

/-- Every successful `gpujoin_attach_result_buffer` resets the result
watermark, the depth-1 input result count, and the destination write
cursors. -/
theorem attachResultBuffer_resets (cfg : SizingConfig) (g : GJStats)
    (t : PGJoin) (r : SizingResult)
    (h : attachResultBuffer cfg g t = .ok r) :
    r.kresults_max_items = 0 ∧ r.kresults_in_nitems = 0 ∧
    r.dst.nitems = 0 ∧ r.dst.usage = 0 := by
  unfold attachResultBuffer at h
  obtain ⟨p1, -, h2⟩ := except_bind_ok h
  obtain ⟨p2, hdst, h3⟩ := except_map_ok h2
  have hres := dstSizing_resets _ _ _ _ p2.1 p2.2 (by simpa using hdst)
  subst h3
  exact ⟨rfl, rfl, hres.1, hres.2⟩

/-- **C6** — when a task completes with the device-written
`StromError_DataStoreNoSpace` status and the regrow succeeds, the very
same task object (same identity) is pushed back at the *head* of
`pending_tasks`, its write cursors — `kresults_max_items`, the depth-1
input result-buffer `nitems`, and the destination store's
`nitems`/`usage` — are all reset to zero so the retry is idempotent,
and the callback returns `false`, meaning it consumed the condition
itself: no error is surfaced to the consumer. -/
theorem C6_nospace_requeue (cfg : SizingConfig) (g : GJStats)
    (sched : Sched) (t : PGJoin) (freshId : Nat) (r : CompleteResult)
    (he : t.errcode = ErrCode.dataStoreNoSpace)
    (h : gpujoin_task_complete cfg g sched t freshId = .ok r) :
    r.retval = false ∧
    r.task.id = t.id ∧
    r.sched.pending = r.task :: sched.pending ∧
    r.task.kresults_max_items = 0 ∧
    r.task.kresults_in_nitems = 0 ∧
    (∃ d, r.task.pds_dst = some d ∧ d.nitems = 0 ∧ d.usage = 0) := by
  unfold gpujoin_task_complete at h
  rw [he] at h
  obtain ⟨res, hab, h3⟩ := except_map_ok h
  have hres := attachResultBuffer_resets cfg g t res hab
  subst h3
  exact ⟨rfl, rfl, rfl, rfl, rfl,
    ⟨res.dst, rfl, hres.2.2.1, hres.2.2.2⟩⟩

/-- Witness for `C6_nospace_requeue` on the concrete no-space task. -/
theorem C6_nospace_requeue_witness :
    ∃ r, gpujoin_task_complete sampleConfig sampleStats sampleSched
        sampleNoSpaceTask 9 = .ok r ∧
      r.retval = false ∧
      r.sched.pending = r.task :: sampleSched.pending ∧
      r.task.kresults_max_items = 0 := by
  cases hr : gpujoin_task_complete sampleConfig sampleStats sampleSched
      sampleNoSpaceTask 9 with
  | error e =>
      have hok : isOkE (gpujoin_task_complete sampleConfig sampleStats
          sampleSched sampleNoSpaceTask 9) = true := by
        with_unfolding_all rfl
      rw [hr] at hok
      simp [isOkE] at hok
  | ok r =>
      have hc := C6_nospace_requeue sampleConfig sampleStats sampleSched
        sampleNoSpaceTask 9 r rfl hr
      exact ⟨r, rfl, hc.1, hc.2.2.1, hc.2.2.2.1⟩

/-- **C7** — on a re-sizing after `StromError_DataStoreNoSpace` (the
task already owns a destination buffer), the ratios the new buffers are
derived from are the maximum of the fresh prediction and the previous
attempt's actual consumption — `kresults_max_items / oitems_nums` for
the result buffer and `kds_dst->nitems / oitems_nums` for the
destination — so the predictions for a retried task never shrink below
what the task already consumed. -/
theorem C7_retry_prediction_monotone (cfg : SizingConfig) (g : GJStats)
    (t : PGJoin) (prev : DstState) (r : SizingResult)
    (hd : t.pds_dst = some prev)
    (h : attachResultBuffer cfg g t = .ok r) :
    (t.kresults_max_items : ℚ) / (t.oitems_nums : ℚ) ≤
        r.kresults_ratio_used ∧
    (prev.nitems : ℚ) / (t.oitems_nums : ℚ) ≤ r.dst_nrows_ratio_used := by
  unfold attachResultBuffer at h
  obtain ⟨p1, -, h2⟩ := except_bind_ok h
  obtain ⟨p2, -, h3⟩ := except_map_ok h2
  subst h3
  constructor
  · show _ ≤ (retryRatios t (freshRatios g).1 (freshRatios g).2).1
    simp only [retryRatios, hd]
    exact le_max_right _ _
  · show _ ≤ (retryRatios t (freshRatios g).1 (freshRatios g).2).2
    simp only [retryRatios, hd]
    exact le_max_right _ _

/-- Witness for `C7_retry_prediction_monotone` on the concrete no-space
task: the previous attempt consumed ratios 50/100 and 80/100. -/
theorem C7_retry_prediction_monotone_witness :
    ∃ r, attachResultBuffer sampleConfig sampleStats sampleNoSpaceTask =
        .ok r ∧
      (sampleNoSpaceTask.kresults_max_items : ℚ) /
          (sampleNoSpaceTask.oitems_nums : ℚ) ≤ r.kresults_ratio_used ∧
      (samplePrevDst.nitems : ℚ) /
          (sampleNoSpaceTask.oitems_nums : ℚ) ≤ r.dst_nrows_ratio_used := by
  cases hr : attachResultBuffer sampleConfig sampleStats sampleNoSpaceTask with
  | error e =>
      have hok : isOkE (attachResultBuffer sampleConfig sampleStats
          sampleNoSpaceTask) = true := by
        with_unfolding_all rfl
      rw [hr] at hok
      simp [isOkE] at hok
  | ok r =>
      have hc := C7_retry_prediction_monotone sampleConfig sampleStats
        sampleNoSpaceTask samplePrevDst r rfl hr
      exact ⟨r, rfl, hc.1, hc.2⟩

/-- **C8** — (a) when the predicted `kern_gpujoin` would exceed the
`pgstrom_chunk_size()` ceiling, the result-buffer item count is capped
at `reducedItems` (a quantity fixed by the ceiling, not by the
prediction) and the admitted outer row count is scaled down by the same
`reduced / total` proportion, an error being raised exactly when the
admitted count would fall below one row; (b) when a task completes
successfully having admitted fewer outer rows than its chunk holds, a
continuation task for the remaining rows (starting at
`oitems_base + oitems_nums`) is created with the fresh id and queued at
the tail of `pending_tasks`, and ownership of the outer chunk moves
from the completed task (whose `pds_src` becomes `NULL`) to the
continuation. -/
theorem C8_admission_cap_and_continuation :
    (∀ cfg oitems total,
      cfg.chunk_size < kgjoinLength cfg total →
        ((∀ o' t', admitReduction cfg oitems total = .ok (o', t') →
            t' = reducedItems cfg ∧
            o' = ratFloorNat ((oitems : ℚ) * (reducedItems cfg : ℚ) /
                  (total : ℚ)) ∧
            1 ≤ o') ∧
         (admitReduction cfg oitems total =
              .error "Kresults growth ratio too large" ↔
            ratFloorNat ((oitems : ℚ) * (reducedItems cfg : ℚ) /
              (total : ℚ)) = 0))) ∧
    (∀ cfg g sched t freshId r,
      t.errcode = ErrCode.success →
      t.oitems_base + t.oitems_nums < t.src_nitems →
      gpujoin_task_complete cfg g sched t freshId = .ok r →
      ∃ c, r.cont = some c ∧
        c.id = freshId ∧
        c.oitems_base = t.oitems_base + t.oitems_nums ∧
        c.src_chunk = t.src_chunk ∧
        r.task.src_chunk = none ∧
        r.task.id = t.id ∧
        r.sched.pending = sched.pending ++ [c]) := by
  constructor
  · intro cfg oitems total hover
    constructor
    · intro o' t' h
      unfold admitReduction at h
      rw [if_pos hover] at h
      split at h
      · cases h
      · rename_i hlt
        cases h
        exact ⟨rfl, rfl, by omega⟩
    · unfold admitReduction
      rw [if_pos hover]
      constructor
      · intro h
        split at h
        · omega
        · cases h
      · intro h0
        rw [if_pos (by omega)]
  · intro cfg g sched t freshId r he hlt h
    unfold gpujoin_task_complete at h
    rw [he] at h
    rw [if_pos hlt] at h
    obtain ⟨res, -, h3⟩ := except_map_ok h
    subst h3
    exact ⟨_, rfl, rfl, rfl, rfl, rfl, rfl, rfl⟩

/-- Witness for `C8_admission_cap_and_continuation`: under
`tinyConfig` a 100-item prediction is capped at 9 items and 50 admitted
rows become 4; completing the concrete 60-of-100-row task produces a
continuation starting at row 60 that inherits the outer chunk. -/
theorem C8_admission_cap_and_continuation_witness :
    ((9 : Nat) = reducedItems tinyConfig ∧
      (4 : Nat) = ratFloorNat (((50 : Nat) : ℚ) *
        ((reducedItems tinyConfig : Nat) : ℚ) / ((100 : Nat) : ℚ)) ∧
      (1 : Nat) ≤ 4) ∧
    (∃ r c, gpujoin_task_complete sampleConfig sampleStats sampleSched
        sampleSuccessTask 9 = .ok r ∧
      r.cont = some c ∧
      c.oitems_base = sampleSuccessTask.oitems_base +
        sampleSuccessTask.oitems_nums ∧
      c.src_chunk = sampleSuccessTask.src_chunk ∧
      r.task.src_chunk = none) := by
  constructor
  · exact (C8_admission_cap_and_continuation.1 tinyConfig 50 100
      (by decide)).1 4 9 (by with_unfolding_all rfl)
  · cases hr : gpujoin_task_complete sampleConfig sampleStats sampleSched
        sampleSuccessTask 9 with
    | error e =>
        have hok : isOkE (gpujoin_task_complete sampleConfig sampleStats
            sampleSched sampleSuccessTask 9) = true := by
          with_unfolding_all rfl
        rw [hr] at hok
        simp [isOkE] at hok
    | ok r =>
        obtain ⟨c, hc1, _, hc3, hc4, hc5, _, _⟩ :=
          C8_admission_cap_and_continuation.2 sampleConfig sampleStats
            sampleSched sampleSuccessTask 9 r rfl (by decide) hr
        exact ⟨r, c, rfl, hc1, hc3, hc4, hc5⟩

end GpuJoin
